import Mathlib

/-!
Verification of the AI code-review front end and its Netlify proxy.

The development shallowly embeds the two JavaScript sources:
- the browser module (prompt/fetch client `callGeminiAPI`, the renderer
  `formatReviewAsHtml`, `animateScore`, and the submit/clear/copy handlers);
- the serverless handler in `netlify/functions/review.js`.

JavaScript strings are modelled as `String`/`List Char`; JSON values as an
inductive `Json`; the platform built-ins `JSON.parse` / `JSON.stringify` are
modelled by an executable recursive-descent parser and printer over that
type (restricted to integer numerals and the basic escape sequences, which
covers every literal used in this development).  Fallible JavaScript
expressions (property access on `undefined`, calling a method of a
non-function, `JSON.parse` on bad input) are modelled with `Except`/`Option`.
-/

/-- JSON values as produced by the platform `JSON.parse`. -/
inductive Json where
  | null : Json
  | bool : Bool → Json
  | num : Int → Json
  | str : String → Json
  | arr : List Json → Json
  | obj : List (String × Json) → Json

/-- Left brace character, kept out of string literals. -/
def lbraceChar : Char := Char.ofNat 123

/-- Right brace character, kept out of string literals. -/
def rbraceChar : Char := Char.ofNat 125

/-- JSON whitespace (space, tab, line feed, carriage return). -/
def jsonWsChar (c : Char) : Bool :=
  c = ' ' || c = '\t' || c = '\n' || c = '\r'

/-- Skip JSON whitespace. -/
def skipJsonWs (s : List Char) : List Char := s.dropWhile jsonWsChar

/-- Body of a JSON string literal after the opening quote: returns the decoded
characters and the remainder after the closing quote.  Modelled from the
platform `JSON.parse` restricted to the simple escapes. -/
def parseStringBody : List Char → List Char → Option (List Char × List Char)
  | _, [] => none
  | acc, c :: rest =>
    if c = '"' then some (acc.reverse, rest)
    else if c = '\\' then
      match rest with
      | [] => none
      | e :: rest2 =>
        if e = '"' then parseStringBody ('"' :: acc) rest2
        else if e = '\\' then parseStringBody ('\\' :: acc) rest2
        else if e = '/' then parseStringBody ('/' :: acc) rest2
        else if e = 'n' then parseStringBody ('\n' :: acc) rest2
        else if e = 't' then parseStringBody ('\t' :: acc) rest2
        else if e = 'r' then parseStringBody ('\r' :: acc) rest2
        else if e = 'b' then parseStringBody (Char.ofNat 8 :: acc) rest2
        else if e = 'f' then parseStringBody (Char.ofNat 12 :: acc) rest2
        else none
    else parseStringBody (c :: acc) rest

/-- Decimal digits to a natural number. -/
def digitsToNat (ds : List Char) : Nat :=
  ds.foldl (fun a c => a * 10 + (c.toNat - 48)) 0

/-- Parse an integer numeral (optional minus sign). -/
def parseIntNum (s : List Char) : Option (Int × List Char) :=
  match s with
  | [] => none
  | c :: rest =>
    if c = '-' then
      let ds := rest.takeWhile Char.isDigit
      if ds = [] then none
      else some (-(digitsToNat ds : Int), rest.dropWhile Char.isDigit)
    else
      let ds := s.takeWhile Char.isDigit
      if ds = [] then none
      else some ((digitsToNat ds : Int), s.dropWhile Char.isDigit)

/-- Insert a parsed object member the way `JSON.parse` does: a repeated key
keeps its first position but takes the latest value. -/
def insertField (fields : List (String × Json)) (k : String) (v : Json) :
    List (String × Json) :=
  match fields with
  | [] => [(k, v)]
  | (k0, v0) :: rest =>
    if k0 = k then (k0, v) :: rest
    else (k0, v0) :: insertField rest k v

mutual

/-- Parse one JSON value (fuel-indexed recursive descent, modelled from the
platform `JSON.parse`). -/
def parseJsonVal : Nat → List Char → Option (Json × List Char)
  | 0, _ => none
  | Nat.succ fuel, s0 =>
    match skipJsonWs s0 with
    | [] => none
    | c :: rest =>
      if c = lbraceChar then parseJsonMembers fuel rest []
      else if c = '[' then parseJsonItems fuel rest []
      else if c = '"' then
        match parseStringBody [] rest with
        | some (cs, r) => some (Json.str (String.mk cs), r)
        | none => none
      else if c = 't' then
        if "rue".data.isPrefixOf rest then some (Json.bool true, rest.drop 3)
        else none
      else if c = 'f' then
        if "alse".data.isPrefixOf rest then some (Json.bool false, rest.drop 4)
        else none
      else if c = 'n' then
        if "ull".data.isPrefixOf rest then some (Json.null, rest.drop 3)
        else none
      else if c = '-' || c.isDigit then
        match parseIntNum (c :: rest) with
        | some (n, r) => some (Json.num n, r)
        | none => none
      else none

/-- Parse the members of an object after the opening brace. -/
def parseJsonMembers : Nat → List Char → List (String × Json) →
    Option (Json × List Char)
  | 0, _, _ => none
  | Nat.succ fuel, s0, acc =>
    match skipJsonWs s0 with
    | [] => none
    | c :: rest =>
      if c = rbraceChar then
        if acc.isEmpty then some (Json.obj [], rest) else none
      else if c = '"' then
        match parseStringBody [] rest with
        | none => none
        | some (kcs, r1) =>
          match skipJsonWs r1 with
          | [] => none
          | c2 :: r2 =>
            if c2 = ':' then
              match parseJsonVal fuel r2 with
              | none => none
              | some (v, r3) =>
                let acc2 := insertField acc (String.mk kcs) v
                match skipJsonWs r3 with
                | [] => none
                | c3 :: r4 =>
                  if c3 = ',' then parseJsonMembers fuel r4 acc2
                  else if c3 = rbraceChar then some (Json.obj acc2, r4)
                  else none
            else none
      else none

/-- Parse the items of an array after the opening bracket. -/
def parseJsonItems : Nat → List Char → List Json → Option (Json × List Char)
  | 0, _, _ => none
  | Nat.succ fuel, s0, acc =>
    match skipJsonWs s0 with
    | [] => none
    | c :: rest =>
      if c = ']' then
        if acc.isEmpty then some (Json.arr [], rest) else none
      else
        match parseJsonVal fuel (c :: rest) with
        | none => none
        | some (v, r1) =>
          match skipJsonWs r1 with
          | [] => none
          | c2 :: r2 =>
            if c2 = ',' then parseJsonItems fuel r2 (acc ++ [v])
            else if c2 = ']' then some (Json.arr (acc ++ [v]), r2)
            else none

end

/-- The platform `JSON.parse`: `none` models a thrown `SyntaxError`. -/
def jsonParse (s : String) : Option Json :=
  match parseJsonVal (2 * s.data.length + 8) s.data with
  | some (v, rest) => if skipJsonWs rest = [] then some v else none
  | none => none

/-- Escape one character for a JSON string literal. -/
def escapeJsonChar (c : Char) : List Char :=
  if c = '"' then ['\\', '"']
  else if c = '\\' then ['\\', '\\']
  else if c = '\n' then ['\\', 'n']
  else if c = '\t' then ['\\', 't']
  else if c = '\r' then ['\\', 'r']
  else if c = Char.ofNat 8 then ['\\', 'b']
  else if c = Char.ofNat 12 then ['\\', 'f']
  else [c]

/-- Serialize a string the way `JSON.stringify` does. -/
def stringifyStr (s : String) : String :=
  String.mk ('"' :: (s.data.map escapeJsonChar).flatten ++ ['"'])

mutual

/-- The platform `JSON.stringify` (no indentation argument). -/
def jsonStringify : Json → String
  | Json.null => "null"
  | Json.bool true => "true"
  | Json.bool false => "false"
  | Json.num n => toString n
  | Json.str s => stringifyStr s
  | Json.arr xs => "[" ++ stringifyList xs ++ "]"
  | Json.obj fs =>
      String.mk [lbraceChar] ++ stringifyFields fs ++ String.mk [rbraceChar]

/-- Comma-separated serialization of array items. -/
def stringifyList : List Json → String
  | [] => ""
  | [x] => jsonStringify x
  | x :: y :: rest => jsonStringify x ++ "," ++ stringifyList (y :: rest)

/-- Comma-separated serialization of object members. -/
def stringifyFields : List (String × Json) → String
  | [] => ""
  | [(k, v)] => stringifyStr k ++ ":" ++ jsonStringify v
  | (k, v) :: f :: rest =>
      stringifyStr k ++ ":" ++ jsonStringify v ++ "," ++
        stringifyFields (f :: rest)

end

/-- JavaScript property access `v.k`.  Reading a property of `undefined`
(modelled as `none`) or of `null` throws a `TypeError`; on anything else it
yields the property value or `undefined`. -/
def jsGetProp (v : Option Json) (k : String) : Except String (Option Json) :=
  match v with
  | none =>
      Except.error ("TypeError: cannot read properties of undefined, reading "
        ++ k)
  | some Json.null =>
      Except.error ("TypeError: cannot read properties of null, reading " ++ k)
  | some (Json.obj fields) =>
      Except.ok ((fields.find? (fun p => p.fst = k)).map Prod.snd)
  | some _ => Except.ok none

/-- JavaScript index access `v[i]`. -/
def jsIndex (v : Option Json) (i : Nat) : Except String (Option Json) :=
  match v with
  | none =>
      Except.error "TypeError: cannot read properties of undefined, indexing"
  | some Json.null =>
      Except.error "TypeError: cannot read properties of null, indexing"
  | some (Json.arr xs) => Except.ok xs[i]?
  | some (Json.obj fields) =>
      Except.ok ((fields.find? (fun p => p.fst = toString i)).map Prod.snd)
  | some _ => Except.ok none

/-- JavaScript truthiness of a possibly-undefined JSON value. -/
def jsTruthy : Option Json → Bool
  | none => false
  | some Json.null => false
  | some (Json.bool b) => b
  | some (Json.num n) => !(n = 0)
  | some (Json.str s) => !(s = "")
  | some (Json.arr _) => true
  | some (Json.obj _) => true

/-!
### Markdown fence cleanup from `callGeminiAPI`

`textResponse.replace(/```json/g, '').replace(/```/g, '').trim()` performs two
single-pass, left-to-right global replacements of a literal pattern by the
empty string, then trims whitespace from both ends.  `removeAllAux` scans the
character list; on a match it enters a skip state that discards the rest of
the matched pattern before scanning resumes (so matches never overlap,
exactly as the JavaScript engine behaves).
-/

/-- Single left-to-right pass removing every occurrence of `pat`; `skip`
counts characters of a just-matched pattern still to discard. -/
def removeAllAux (pat : List Char) : Nat → List Char → List Char
  | _, [] => []
  | 0, c :: cs =>
    if pat.isPrefixOf (c :: cs) ∧ pat ≠ [] then
      removeAllAux pat (pat.length - 1) cs
    else
      c :: removeAllAux pat 0 cs
  | Nat.succ k, _ :: cs => removeAllAux pat k cs

/-- `s.replace(/pat/g, '')` for a literal pattern `pat`. -/
def removeAll (pat : List Char) (s : List Char) : List Char :=
  removeAllAux pat 0 s

theorem removeAllAux_skip (pat : List Char) :
    ∀ (s : List Char) (k : Nat), removeAllAux pat k s = removeAllAux pat 0 (s.drop k) := by
  intro s
  induction s with
  | nil => intro k; cases k <;> rfl
  | cons c cs ih =>
    intro k
    cases k with
    | zero => rfl
    | succ k => simpa [removeAllAux] using ih k

theorem removeAll_nil (pat : List Char) : removeAll pat [] = [] := rfl

theorem removeAllAux_zero_cons (pat : List Char) (c : Char) (cs : List Char) :
    removeAllAux pat 0 (c :: cs) =
      if pat.isPrefixOf (c :: cs) ∧ pat ≠ [] then removeAllAux pat (pat.length - 1) cs
      else c :: removeAllAux pat 0 cs := rfl

theorem removeAll_cons_pos (pat : List Char) (c : Char) (cs : List Char)
    (hne : pat ≠ []) (hpre : pat.isPrefixOf (c :: cs)) :
    removeAll pat (c :: cs) = removeAll pat (List.drop (pat.length - 1) cs) := by
  show removeAllAux pat 0 (c :: cs) = _
  rw [removeAllAux_zero_cons, if_pos ⟨hpre, hne⟩, removeAllAux_skip]
  rfl

theorem removeAll_cons_neg (pat : List Char) (c : Char) (cs : List Char)
    (h : ¬ pat.isPrefixOf (c :: cs) = true) :
    removeAll pat (c :: cs) = c :: removeAll pat cs := by
  show removeAllAux pat 0 (c :: cs) = _
  rw [removeAllAux_zero_cons, if_neg (fun hc => h hc.1)]
  rfl

theorem removeAll_drop_front_pat (pat s : List Char) (hne : pat ≠ []) :
    removeAll pat (pat ++ s) = removeAll pat s := by
  cases hp : pat with
  | nil => exact absurd hp hne
  | cons p ps =>
    rw [← hp]
    have hcons : pat ++ s = p :: (ps ++ s) := by rw [hp]; rfl
    rw [hcons]
    rw [removeAll_cons_pos pat p (ps ++ s) hne
      (by rw [← hcons]; exact List.isPrefixOf_iff_prefix.mpr (List.prefix_append pat s))]
    have hlen : pat.length - 1 = ps.length := by rw [hp]; simp
    rw [hlen, List.drop_left]

theorem removeAll_sep (pat : List Char) (hne : pat ≠ []) :
    ∀ (sep s : List Char), (∀ c ∈ sep, c ∉ pat) →
      removeAll pat (sep ++ s) = sep ++ removeAll pat s := by
  intro sep
  induction sep with
  | nil => intro s _; rfl
  | cons c cs ih =>
    intro s hsep
    have hc : c ∉ pat := hsep c (List.mem_cons_self c cs)
    have hnp : ¬ pat.isPrefixOf (c :: (cs ++ s)) = true := by
      intro h
      rcases List.isPrefixOf_iff_prefix.mp h with ⟨t, ht⟩
      cases hp : pat with
      | nil => exact hne hp
      | cons p pt =>
        rw [hp] at ht
        have hpc : p = c := by
          have := congrArg (List.head? ·) ht
          simpa using this
        exact hc (by rw [hp, hpc]; exact List.mem_cons_self c pt)
    have hcons : (c :: cs) ++ s = c :: (cs ++ s) := rfl
    rw [hcons, removeAll_cons_neg pat c (cs ++ s) hnp,
      ih s (fun d hd => hsep d (List.mem_cons_of_mem c hd))]
    rfl

theorem removeAll_middle (pat sep : List Char) (hne : pat ≠ [])
    (hsepne : sep ≠ []) (hsep : ∀ c ∈ sep, c ∉ pat) :
    ∀ (n : Nat) (xs : List Char), xs.length = n → ∀ ys : List Char,
      removeAll pat (xs ++ sep ++ ys) = removeAll pat xs ++ sep ++ removeAll pat ys := by
  intro n
  induction n using Nat.strong_induction_on with
  | _ n ih =>
    intro xs hlen ys
    cases xs with
    | nil =>
      simp only [List.nil_append, removeAll_nil]
      exact removeAll_sep pat hne sep ys hsep
    | cons x xs2 =>
      by_cases hp : pat.isPrefixOf ((x :: xs2) ++ sep ++ ys) = true
      · have hpre : pat <+: ((x :: xs2) ++ (sep ++ ys)) := by
          have := List.isPrefixOf_iff_prefix.mp hp
          simpa [List.append_assoc] using this
        have hlenle : pat.length ≤ (x :: xs2).length := by
          by_contra hgt
          push_neg at hgt
          have hxp : (x :: xs2) <+: pat :=
            List.prefix_of_prefix_length_le (List.prefix_append _ _) hpre (Nat.le_of_lt hgt)
          rcases hxp with ⟨pt, hpt⟩
          rcases hpre with ⟨t, ht⟩
          have hpt2 : pt ++ t = sep ++ ys := by
            have h1 : (x :: xs2) ++ (pt ++ t) = (x :: xs2) ++ (sep ++ ys) := by
              rw [← List.append_assoc, hpt, ht]
            exact List.append_cancel_left h1
          cases pt with
          | nil =>
            rw [← hpt] at hgt
            simp at hgt
          | cons q qt =>
            cases hsepc : sep with
            | nil => exact hsepne hsepc
            | cons s0 st =>
              have hq : q = s0 := by
                rw [hsepc] at hpt2
                have := congrArg (List.head? ·) hpt2
                simpa using this
              have hqmem : q ∈ pat := by
                rw [← hpt]
                exact List.mem_append_right _ (List.mem_cons_self q qt)
              exact hsep s0 (by rw [hsepc]; exact List.mem_cons_self s0 st) (hq ▸ hqmem)
        have hpxs : pat <+: (x :: xs2) :=
          List.prefix_of_prefix_length_le hpre (List.prefix_append _ _) hlenle
        rcases hpxs with ⟨xr, hxr⟩
        have hassoc1 : (x :: xs2) ++ sep ++ ys = pat ++ (xr ++ sep ++ ys) := by
          rw [← hxr]; simp [List.append_assoc]
        rw [hassoc1, removeAll_drop_front_pat pat _ hne, ← hxr,
          removeAll_drop_front_pat pat xr hne]
        have hxrlen : xr.length < n := by
          have h1 : pat.length + xr.length = (x :: xs2).length := by
            rw [← hxr]; simp
          have h2 : 1 ≤ pat.length := by
            cases hpp : pat with
            | nil => exact absurd hpp hne
            | cons _ _ => simp
          omega
        exact ih xr.length hxrlen xr rfl ys
      · have hnp2 : ¬ pat.isPrefixOf (x :: (xs2 ++ sep ++ ys)) = true := by
          intro h; apply hp
          have : (x :: xs2) ++ sep ++ ys = x :: (xs2 ++ sep ++ ys) := by simp
          rw [this]; exact h
        have hnpxs : ¬ pat.isPrefixOf (x :: xs2) = true := by
          intro h
          apply hp
          apply List.isPrefixOf_iff_prefix.mpr
          have hstep : pat <+: ((x :: xs2) ++ (sep ++ ys)) :=
            ( List.isPrefixOf_iff_prefix.mp h).trans (List.prefix_append _ _)
          simpa [List.append_assoc] using hstep
        have hcons : (x :: xs2) ++ sep ++ ys = x :: (xs2 ++ sep ++ ys) := by simp
        rw [hcons, removeAll_cons_neg pat x _ hnp2, removeAll_cons_neg pat x xs2 hnpxs]
        have hlt : xs2.length < n := by
          rw [← hlen]; simp
        rw [ih xs2.length hlt xs2 rfl ys]
        rfl

/-!
### JavaScript `String.prototype.trim`

Modelled on the four common whitespace characters (space, tab, LF, CR),
which are the only whitespace characters this code base produces.
-/

/-- Trim whitespace from the left (`dropWhile`). -/
def trimL (s : List Char) : List Char := s.dropWhile jsonWsChar

/-- Trim whitespace from the right (`rdropWhile`). -/
def trimR (s : List Char) : List Char := s.rdropWhile jsonWsChar

/-- JavaScript `s.trim()` on character lists. -/
def trimBoth (s : List Char) : List Char := trimL (trimR s)

/-- JavaScript `s.trim()` on strings. -/
def trimStr (s : String) : String := String.mk (trimBoth s.data)

theorem dropWhile_append_all {α : Type} (p : α → Bool) (l₁ l₂ : List α)
    (h : ∀ a ∈ l₁, p a) : (l₁ ++ l₂).dropWhile p = l₂.dropWhile p := by
  induction l₁ with
  | nil => rfl
  | cons a l ih =>
    have ha : p a := h a (List.mem_cons_self a l)
    simp only [List.cons_append, List.dropWhile_cons, ha, if_true]
    exact ih (fun b hb => h b (List.mem_cons_of_mem a hb))

theorem dropWhile_append_rest {α : Type} (p : α → Bool) (l₁ l₂ : List α)
    (h : l₁.dropWhile p ≠ []) :
    (l₁ ++ l₂).dropWhile p = l₁.dropWhile p ++ l₂ := by
  induction l₁ with
  | nil => exact absurd rfl h
  | cons a l ih =>
    by_cases ha : p a
    · simp only [List.cons_append, List.dropWhile_cons, ha, if_true]
      simp only [List.dropWhile_cons, ha, if_true] at h
      exact ih h
    · simp [List.cons_append, List.dropWhile_cons, ha]

theorem rdropWhile_cons {α : Type} [DecidableEq α] (p : α → Bool) (x : α) (l : List α) :
    (x :: l).rdropWhile p =
      if l.rdropWhile p = [] then (if p x then [] else [x])
      else x :: l.rdropWhile p := by
  by_cases h : l.rdropWhile p = []
  · have hall : ∀ a ∈ l.reverse, p a := by
      rw [List.rdropWhile_eq_nil_iff] at h
      intro a ha
      exact h a (List.mem_reverse.mp ha)
    rw [if_pos h]
    rw [List.rdropWhile, List.reverse_cons, dropWhile_append_all p _ [x] hall]
    by_cases hx : p x
    · simp [hx]
    · simp [List.dropWhile, hx]
  · have h2 : l.reverse.dropWhile p ≠ [] := by
      intro hx
      apply h
      rw [List.rdropWhile, hx, List.reverse_nil]
    rw [if_neg h]
    rw [List.rdropWhile, List.reverse_cons, dropWhile_append_rest p _ [x] h2,
      List.reverse_append]
    rfl

theorem trimBoth_cons_ws (c : Char) (s : List Char) (h : jsonWsChar c) :
    trimBoth (c :: s) = trimBoth s := by
  unfold trimBoth trimR
  rw [rdropWhile_cons]
  by_cases he : s.rdropWhile jsonWsChar = []
  · rw [if_pos he, if_pos h, he]
  · rw [if_neg he]
    unfold trimL
    rw [List.dropWhile_cons, if_pos h]

theorem trimBoth_concat_ws (s : List Char) (x : Char) (h : jsonWsChar x) :
    trimBoth (s ++ [x]) = trimBoth s := by
  unfold trimBoth trimR
  rw [List.rdropWhile_concat_pos _ _ _ h]

theorem trimBoth_append_ws (s w : List Char) (h : ∀ c ∈ w, jsonWsChar c) :
    trimBoth (s ++ w) = trimBoth s := by
  induction w using List.reverseRecOn with
  | nil => rw [List.append_nil]
  | append_singleton w x ih =>
    rw [← List.append_assoc,
      trimBoth_concat_ws (s ++ w) x (h x (List.mem_append_right w (List.mem_cons_self x [])))]
    exact ih (fun c hc => h c (List.mem_append_left [x] hc))

/-!
### `callGeminiAPI` response cleanup

`const cleanedResponse = textResponse.replace(/```json/g, '').replace(/```/g, '').trim();`
-/

/-- Pattern of the first replace: the json-tagged fence opener. -/
def jsonFencePat : List Char := "```json".data

/-- Pattern of the second replace: a bare triple-backtick fence. -/
def fencePat : List Char := "```".data

/-- The cleanup pipeline applied to the candidate text in `callGeminiAPI`. -/
def cleanedResponse (textResponse : String) : String :=
  String.mk (trimBoth (removeAll fencePat (removeAll jsonFencePat textResponse.data)))

/-- Candidate text wrapped in a leading ```` ```json ```` fence and a trailing
```` ``` ```` fence, each separated from the payload by a newline. -/
def wrapJsonFence (t : String) : String := "```json\n" ++ t ++ "\n```"

theorem cleaned_wrap (t : String) :
    cleanedResponse (wrapJsonFence t) = cleanedResponse t := by
  have hjne : jsonFencePat ≠ [] := by decide
  have hfne : fencePat ≠ [] := by decide
  have hnlj : ∀ c ∈ ['\n'], c ∉ jsonFencePat := by decide
  have hnlf : ∀ c ∈ ['\n'], c ∉ fencePat := by decide
  have hdata : (wrapJsonFence t).data =
      jsonFencePat ++ (['\n'] ++ (t.data ++ ['\n'] ++ fencePat)) := by
    unfold wrapJsonFence
    rw [String.data_append, String.data_append]
    show "```json\n".data ++ t.data ++ "\n```".data = _
    simp [jsonFencePat, fencePat, List.append_assoc]
  unfold cleanedResponse
  rw [hdata]
  rw [removeAll_drop_front_pat jsonFencePat _ hjne]
  rw [removeAll_sep jsonFencePat hjne ['\n'] _ hnlj]
  rw [removeAll_middle jsonFencePat ['\n'] hjne (by decide) hnlj t.data.length t.data rfl
    fencePat]
  rw [show removeAll jsonFencePat fencePat = fencePat from by decide]
  rw [removeAll_sep fencePat hfne ['\n'] _ hnlf]
  rw [removeAll_middle fencePat ['\n'] hfne (by decide) hnlf
    (removeAll jsonFencePat t.data).length (removeAll jsonFencePat t.data) rfl fencePat]
  rw [show removeAll fencePat fencePat = [] from by decide]
  rw [List.append_nil]
  rw [show (['\n'] ++ (removeAll fencePat (removeAll jsonFencePat t.data) ++ ['\n'])) =
    '\n' :: (removeAll fencePat (removeAll jsonFencePat t.data) ++ ['\n']) from rfl]
  rw [trimBoth_cons_ws '\n' _ (by decide)]
  rw [trimBoth_append_ws _ ['\n'] (by decide)]

/-!
### The browser Completion Client `callGeminiAPI`

`result.candidates[0].content.parts[0].text` is the extraction chain shared
with the Netlify function; each step is JavaScript property/index access.
-/

/-- `result.candidates[0].content.parts[0].text`. -/
def extractFirstCandidateText (result : Json) : Except String (Option Json) :=
  match jsGetProp (some result) "candidates" with
  | Except.error e => Except.error e
  | Except.ok c =>
    match jsIndex c 0 with
    | Except.error e => Except.error e
    | Except.ok c0 =>
      match jsGetProp c0 "content" with
      | Except.error e => Except.error e
      | Except.ok content =>
        match jsGetProp content "parts" with
        | Except.error e => Except.error e
        | Except.ok parts =>
          match jsIndex parts 0 with
          | Except.error e => Except.error e
          | Except.ok p0 => jsGetProp p0 "text"

/-- Observable steps of one `callGeminiAPI` run. -/
inductive CallEvent where
  | fetchSent : CallEvent
  | readBodyJson : CallEvent
  | parseCleaned : CallEvent
deriving DecidableEq

/-- Result of `fetch` on the Gemini endpoint, after `response.json()` has been
observed: `body = none` models a response whose body is not valid JSON (so
`response.json()` would throw). -/
structure FetchResponse where
  ok : Bool
  status : Nat
  statusText : String
  body : Option Json

/-- Message of the error thrown when `JSON.parse(cleanedResponse)` fails. -/
def invalidResponseMsg : String :=
  "The AI returned an invalid response. Please try again."

/-- The browser client `callGeminiAPI`, from the point where the `fetch`
response is available; the second component traces which processing steps
ran.  Thrown errors are `Except.error` with the thrown message. -/
def callGeminiAPI (resp : FetchResponse) : Except String Json × List CallEvent :=
  if !resp.ok then
    (Except.error ("API Error: " ++ toString resp.status ++ " " ++ resp.statusText),
      [CallEvent.fetchSent])
  else
    match resp.body with
    | none =>
      (Except.error "SyntaxError: response body is not valid JSON",
        [CallEvent.fetchSent, CallEvent.readBodyJson])
    | some result =>
      match extractFirstCandidateText result with
      | Except.error e => (Except.error e, [CallEvent.fetchSent, CallEvent.readBodyJson])
      | Except.ok (some (Json.str textResponse)) =>
        match jsonParse (cleanedResponse textResponse) with
        | some v =>
          (Except.ok v,
            [CallEvent.fetchSent, CallEvent.readBodyJson, CallEvent.parseCleaned])
        | none =>
          (Except.error invalidResponseMsg,
            [CallEvent.fetchSent, CallEvent.readBodyJson, CallEvent.parseCleaned])
      | Except.ok (some _) =>
        (Except.error "TypeError: textResponse.replace is not a function",
          [CallEvent.fetchSent, CallEvent.readBodyJson])
      | Except.ok none =>
        (Except.error "TypeError: cannot read properties of undefined, reading replace",
          [CallEvent.fetchSent, CallEvent.readBodyJson])

/-- The upstream body `{candidates:[{content:{parts:[{text:t}]}}]}`. -/
def candidatesBody (t : String) : Json :=
  Json.obj [("candidates", Json.arr [Json.obj [("content",
    Json.obj [("parts", Json.arr [Json.obj [("text", Json.str t)]])])]])]

/-- A successful upstream response whose single candidate text is `t`. -/
def mkGeminiSuccess (t : String) : FetchResponse :=
  { ok := true, status := 200, statusText := "OK", body := some (candidatesBody t) }

/-- Outcome of the parse step on an already-cleaned candidate text. -/
def parseOutcome (cleaned : String) : Except String Json × List CallEvent :=
  (match jsonParse cleaned with
   | some v => Except.ok v
   | none => Except.error invalidResponseMsg,
   [CallEvent.fetchSent, CallEvent.readBodyJson, CallEvent.parseCleaned])

theorem callGeminiAPI_mkSuccess (u : String) :
    callGeminiAPI (mkGeminiSuccess u) = parseOutcome (cleanedResponse u) := by
  show (match jsonParse (cleanedResponse u) with
    | some v =>
      (Except.ok v, [CallEvent.fetchSent, CallEvent.readBodyJson, CallEvent.parseCleaned])
    | none =>
      (Except.error invalidResponseMsg,
        [CallEvent.fetchSent, CallEvent.readBodyJson, CallEvent.parseCleaned])) =
    parseOutcome (cleanedResponse u)
  cases h : jsonParse (cleanedResponse u) <;> simp [parseOutcome, h]

/-- C1: wrapping a candidate text in a leading ```` ```json ```` fence and a
trailing ```` ``` ```` fence (with a newline on each side) leaves the result
of `callGeminiAPI` unchanged; in particular the fenced review object
parses to the expected `ReviewResult` fields. -/
theorem C1_fence_wrapped_candidate_parses_same (t : String) :
    callGeminiAPI (mkGeminiSuccess (wrapJsonFence t)) =
      callGeminiAPI (mkGeminiSuccess t) ∧
    (callGeminiAPI (mkGeminiSuccess
        (wrapJsonFence "\x7b\"review\":\"ok\",\"updatedCode\":\"\",\"score\":90\x7d"))).1 =
      Except.ok (Json.obj [("review", Json.str "ok"), ("updatedCode", Json.str ""),
        ("score", Json.num 90)]) := by
  constructor
  · rw [callGeminiAPI_mkSuccess, callGeminiAPI_mkSuccess, cleaned_wrap]
  · rfl

/-- C6: on a non-success HTTP status, `callGeminiAPI` fails with the thrown
transport error that carries the status code and reason phrase, and neither
the body-JSON read nor the cleaned-text parse step runs. -/
theorem C6_non_success_transport_error (resp : FetchResponse) (h : resp.ok = false) :
    callGeminiAPI resp =
      (Except.error ("API Error: " ++ toString resp.status ++ " " ++ resp.statusText),
        [CallEvent.fetchSent]) ∧
    (∃ pre post : String,
      "API Error: " ++ toString resp.status ++ " " ++ resp.statusText =
        pre ++ toString resp.status ++ post) ∧
    CallEvent.readBodyJson ∉ (callGeminiAPI resp).2 ∧
    CallEvent.parseCleaned ∉ (callGeminiAPI resp).2 := by
  have hcall : callGeminiAPI resp =
      (Except.error ("API Error: " ++ toString resp.status ++ " " ++ resp.statusText),
        [CallEvent.fetchSent]) := by
    unfold callGeminiAPI
    rw [h]
    rfl
  refine ⟨hcall, ⟨"API Error: ", " " ++ resp.statusText, ?_⟩, ?_, ?_⟩
  · simp [String.append_assoc]
  · rw [hcall]; simp
  · rw [hcall]; simp

/-- A concrete HTTP 429 response used as the C6 witness input. -/
def resp429 : FetchResponse := ⟨false, 429, "Too Many Requests", none⟩

/-- C6 witness: HTTP 429 "Too Many Requests" produces the transport error
whose message contains 429, with no parsing step. -/
theorem C6_witness_429 :
    callGeminiAPI resp429 =
      (Except.error ("API Error: " ++ toString (429 : Nat) ++ " " ++ "Too Many Requests"),
        [CallEvent.fetchSent]) ∧
    (∃ pre post : String,
      "API Error: " ++ toString (429 : Nat) ++ " " ++ "Too Many Requests" =
        pre ++ toString (429 : Nat) ++ post) ∧
    CallEvent.readBodyJson ∉ (callGeminiAPI resp429).2 ∧
    CallEvent.parseCleaned ∉ (callGeminiAPI resp429).2 :=
  C6_non_success_transport_error resp429 rfl

/-- A success response whose body has an empty `candidates` array. -/
def respNoCandidate : FetchResponse :=
  ⟨true, 200, "OK", some (Json.obj [("candidates", Json.arr [])])⟩

/-- C8: on a success response whose body has an empty `candidates` array the
client does not fail with a distinct empty-response error: it throws the
generic `TypeError` of reading `.content` on `undefined` (the source has no
guard for a missing candidate). -/
theorem C8_missing_candidate_generic_typeerror :
    callGeminiAPI respNoCandidate =
      (Except.error "TypeError: cannot read properties of undefined, reading content",
        [CallEvent.fetchSent, CallEvent.readBodyJson]) := rfl

/-- Candidate text for C9: a syntactically valid JSON object whose `review`
string field contains a bare triple-backtick fence in the middle. -/
def fenceInsideText : String :=
  "\x7b\"review\":\"a```b\",\"updatedCode\":\"\",\"score\":1\x7d"

/-- C9: the cleanup removes fence substrings anywhere in the candidate text,
not only at its edges: on `fenceInsideText` the interior fence is deleted, so
the client returns an object different from directly parsing the text. -/
theorem C9_fence_removed_everywhere :
    cleanedResponse fenceInsideText =
      "\x7b\"review\":\"ab\",\"updatedCode\":\"\",\"score\":1\x7d" ∧
    jsonParse fenceInsideText =
      some (Json.obj [("review", Json.str "a```b"), ("updatedCode", Json.str ""),
        ("score", Json.num 1)]) ∧
    (callGeminiAPI (mkGeminiSuccess fenceInsideText)).1 =
      Except.ok (Json.obj [("review", Json.str "ab"), ("updatedCode", Json.str ""),
        ("score", Json.num 1)]) ∧
    jsonParse (cleanedResponse fenceInsideText) ≠ jsonParse fenceInsideText := by
  refine ⟨rfl, rfl, rfl, ?_⟩
  have hne : Option.map jsonStringify (jsonParse (cleanedResponse fenceInsideText)) ≠
      Option.map jsonStringify (jsonParse fenceInsideText) := by decide
  exact fun h => hne (congrArg (Option.map jsonStringify) h)

/-!
### The Review Renderer `formatReviewAsHtml`

```
const lines = reviewText.split('\n').filter(line => line.trim() !== '');
let html = '<ul class="space-y-2">';
lines.forEach(line => {
    let trimmedLine = line.trim().substring(line.indexOf('*') + 1).trim();
    html += `<li class="ml-5 list-disc">${trimmedLine}</li>`;
});
html += '</ul>';
```
Note that `indexOf` runs on the untrimmed `line` while `substring` runs on
the trimmed one.
-/

/-- JavaScript `s.split('\n')` on character lists. -/
def splitOnNl : List Char → List (List Char)
  | [] => [[]]
  | c :: cs =>
    match splitOnNl cs with
    | [] => [[c]]
    | h :: t => if c = '\n' then [] :: h :: t else (c :: h) :: t

/-- JavaScript `s.indexOf(c)`: index of the first occurrence, `-1` if none. -/
def jsIndexOfChar (s : List Char) (c : Char) : Int :=
  match s.findIdx? (fun d => d = c) with
  | some i => (i : Int)
  | none => -1

/-- The list item content the source computes for one line. -/
def formatItem (line : List Char) : List Char :=
  trimBoth (List.drop (jsIndexOfChar line '*' + 1).toNat (trimBoth line))

/-- Opening tag of the produced list. -/
def ulOpen : String := "<ul class=\"space-y-2\">"

/-- Closing tag of the produced list. -/
def ulClose : String := "</ul>"

/-- Opening tag of one produced list item. -/
def liOpen : String := "<li class=\"ml-5 list-disc\">"

/-- Closing tag of one produced list item. -/
def liClose : String := "</li>"

/-- The renderer `formatReviewAsHtml`. -/
def formatReviewAsHtml (reviewText : String) : String :=
  ulOpen ++
    String.join (((splitOnNl reviewText.data).filter (fun l => trimBoth l ≠ [])).map
      (fun l => liOpen ++ String.mk (formatItem l) ++ liClose)) ++
    ulClose

/-- The item content described by the specification sentence: the line's
content after (and excluding) its first asterisk, trimmed; a line containing
no asterisk is kept whole. -/
def claimItem (line : List Char) : List Char :=
  match line.findIdx? (fun d => d = '*') with
  | none => line
  | some i => trimBoth (List.drop (i + 1) line)

/-- The renderer behaviour claimed by the specification: non-empty lines,
one item per line with `claimItem` content. -/
def claimFormatReview (reviewText : String) : String :=
  ulOpen ++
    String.join (((splitOnNl reviewText.data).filter (fun l => l ≠ [])).map
      (fun l => liOpen ++ String.mk (claimItem l) ++ liClose)) ++
    ulClose

/-- The item content of the amended claim: as `claimItem`, but the kept-whole
case of a line without an asterisk is also trimmed. -/
def claimItemTrimmed (line : List Char) : List Char :=
  match line.findIdx? (fun d => d = '*') with
  | none => trimBoth line
  | some i => trimBoth (List.drop (i + 1) line)

/-- The renderer behaviour of the amended claim. -/
def claimFormatReviewTrimmed (reviewText : String) : String :=
  ulOpen ++
    String.join (((splitOnNl reviewText.data).filter (fun l => l ≠ [])).map
      (fun l => liOpen ++ String.mk (claimItemTrimmed l) ++ liClose)) ++
    ulClose

/-- A line has no leading whitespace. -/
def noLeadingWs (l : List Char) : Bool :=
  match l with
  | [] => true
  | c :: _ => !jsonWsChar c

theorem trimL_eq_self_of_noLeadingWs (l : List Char) (h : noLeadingWs l = true) :
    trimL l = l := by
  cases l with
  | nil => rfl
  | cons c cs =>
    have hc : jsonWsChar c = false := by
      simpa [noLeadingWs] using h
    unfold trimL
    rw [List.dropWhile_cons, hc]
    simp

theorem rdropWhile_append_rtakeWhile {α : Type} (p : α → Bool) (l : List α) :
    l.rdropWhile p ++ l.rtakeWhile p = l := by
  rw [List.rdropWhile, List.rtakeWhile]
  rw [← List.reverse_append, List.takeWhile_append_dropWhile, List.reverse_reverse]

theorem noLeadingWs_trimR (l : List Char) (h : noLeadingWs l = true) :
    noLeadingWs (trimR l) = true := by
  cases htr : trimR l with
  | nil => rfl
  | cons d ds =>
    have hpre : trimR l ++ l.rtakeWhile jsonWsChar = l :=
      rdropWhile_append_rtakeWhile jsonWsChar l
    rw [htr] at hpre
    cases hll : l with
    | nil =>
      rw [hll] at hpre
      simp at hpre
    | cons c cs =>
      have hd : d = c := by
        have h1 := congrArg List.head? hpre
        rw [hll] at h1
        simpa using h1
      show (!jsonWsChar d) = true
      rw [hd]
      rw [hll] at h
      simpa [noLeadingWs] using h

theorem trimBoth_eq_trimR_of_noLeadingWs (l : List Char) (h : noLeadingWs l = true) :
    trimBoth l = trimR l := by
  unfold trimBoth
  exact trimL_eq_self_of_noLeadingWs (trimR l) (noLeadingWs_trimR l h)

theorem trimBoth_empty_iff_of_noLeadingWs (l : List Char) (h : noLeadingWs l = true) :
    (trimBoth l = []) ↔ (l = []) := by
  constructor
  · intro he
    rw [trimBoth_eq_trimR_of_noLeadingWs l h] at he
    cases l with
    | nil => rfl
    | cons c cs =>
      have hc : jsonWsChar c = false := by simpa [noLeadingWs] using h
      unfold trimR at he
      rw [List.rdropWhile_eq_nil_iff] at he
      have := he c (List.mem_cons_self c cs)
      rw [hc] at this
      exact absurd this (by simp)
  · intro he
    rw [he]
    rfl

theorem formatItem_eq_claimItemTrimmed (l : List Char) (h : noLeadingWs l = true) :
    formatItem l = claimItemTrimmed l := by
  unfold formatItem claimItemTrimmed jsIndexOfChar
  cases hidx : l.findIdx? (fun d => d = '*') with
  | none =>
    show trimBoth (List.drop ((-1 + 1 : Int)).toNat (trimBoth l)) = trimBoth l
    rw [show ((-1 + 1 : Int)).toNat = 0 from rfl, List.drop_zero]
    rw [trimBoth_eq_trimR_of_noLeadingWs l h]
    rw [trimBoth_eq_trimR_of_noLeadingWs (trimR l) (noLeadingWs_trimR l h)]
    exact List.rdropWhile_idempotent jsonWsChar l
  | some i =>
    show trimBoth (List.drop (((i : Int) + 1)).toNat (trimBoth l)) =
      trimBoth (List.drop (i + 1) l)
    rw [show (((i : Int) + 1)).toNat = i + 1 from by omega]
    rw [trimBoth_eq_trimR_of_noLeadingWs l h]
    have hdecomp : trimR l ++ l.rtakeWhile jsonWsChar = l :=
      rdropWhile_append_rtakeWhile jsonWsChar l
    rcases List.findIdx?_eq_some_iff_getElem.mp hidx with ⟨hlt, hstar, -⟩
    have hstareq : l[i] = '*' := of_decide_eq_true hstar
    have hle : i + 1 ≤ (trimR l).length := by
      by_contra hgt
      push_neg at hgt
      have hlen : (trimR l).length + (l.rtakeWhile jsonWsChar).length = l.length := by
        rw [← List.length_append, hdecomp]
      have hlt2 : i < (trimR l ++ l.rtakeWhile jsonWsChar).length := by
        rw [hdecomp]; exact hlt
      have hgl : (trimR l ++ l.rtakeWhile jsonWsChar)[i] = l[i] := by
        congr 1
      have hmem : l[i] ∈ l.rtakeWhile jsonWsChar := by
        rw [← hgl, List.getElem_append_right (by omega)]
        exact List.getElem_mem _
      have hws : jsonWsChar l[i] = true := List.mem_rtakeWhile_imp hmem
      rw [hstareq] at hws
      exact absurd hws (by decide)
    have hdrop : List.drop (i + 1) l =
        List.drop (i + 1) (trimR l) ++ l.rtakeWhile jsonWsChar := by
      conv_lhs => rw [← hdecomp]
      rw [List.drop_append_of_le_length hle]
    rw [hdrop]
    exact (trimBoth_append_ws _ _ (fun c hc => List.mem_rtakeWhile_imp hc)).symm

/-- C2 counterexample: on the line `"  * a"` (leading whitespace before the
asterisk) the source computes the asterisk index on the untrimmed line but
slices the trimmed line, producing an empty item instead of `"a"`. -/
theorem C2_counterexample_leading_space :
    formatReviewAsHtml "  * a" =
      "<ul class=\"space-y-2\"><li class=\"ml-5 list-disc\"></li></ul>" ∧
    claimFormatReview "  * a" =
      "<ul class=\"space-y-2\"><li class=\"ml-5 list-disc\">a</li></ul>" ∧
    formatReviewAsHtml "  * a" ≠ claimFormatReview "  * a" :=
  ⟨rfl, rfl, by decide⟩

/-- C2 (amended): for inputs none of whose lines start with whitespace,
`formatReviewAsHtml` splits into non-empty lines and emits one list item per
line whose content is the line's content after (and excluding) its first
asterisk, trimmed; a line containing no asterisk is kept whole apart from
trimming; the empty input yields an empty list. -/
theorem C2_renderer_amended (reviewText : String)
    (h : ∀ l ∈ splitOnNl reviewText.data, noLeadingWs l = true) :
    formatReviewAsHtml reviewText = claimFormatReviewTrimmed reviewText := by
  unfold formatReviewAsHtml claimFormatReviewTrimmed
  have hfilter : (splitOnNl reviewText.data).filter (fun l => trimBoth l ≠ []) =
      (splitOnNl reviewText.data).filter (fun l => l ≠ []) := by
    apply List.filter_congr
    intro l hl
    have hiff := trimBoth_empty_iff_of_noLeadingWs l (h l hl)
    by_cases hc : l = []
    · subst hc
      rfl
    · have ht : trimBoth l ≠ [] := fun he => hc (hiff.mp he)
      simp [hc, ht]
  rw [hfilter]
  have hmap : ((splitOnNl reviewText.data).filter (fun l => l ≠ [])).map
        (fun l => liOpen ++ String.mk (formatItem l) ++ liClose) =
      ((splitOnNl reviewText.data).filter (fun l => l ≠ [])).map
        (fun l => liOpen ++ String.mk (claimItemTrimmed l) ++ liClose) := by
    apply List.map_congr_left
    intro l hl
    rw [formatItem_eq_claimItemTrimmed l (h l (List.mem_of_mem_filter hl))]
  rw [hmap]

/-- C2 witness: on `"* a\n* b"` the hypothesis holds, the renderer agrees
with the claimed behaviour, the two items are `"a"` and `"b"`, and the empty
input yields an empty list. -/
theorem C2_witness_two_bullets :
    (∀ l ∈ splitOnNl ("* a\n* b").data, noLeadingWs l = true) ∧
    formatReviewAsHtml "* a\n* b" = claimFormatReviewTrimmed "* a\n* b" ∧
    formatReviewAsHtml "* a\n* b" =
      "<ul class=\"space-y-2\"><li class=\"ml-5 list-disc\">a</li><li class=\"ml-5 list-disc\">b</li></ul>" ∧
    formatReviewAsHtml "" = "<ul class=\"space-y-2\"></ul>" :=
  ⟨by decide, C2_renderer_amended "* a\n* b" (by decide), rfl, rfl⟩

/-!
### The UI Controller: the Review button click handler

State components are the DOM pieces the handler touches; the event list
records, in order, the observable actions of one click (network call, DOM
writes, loader/button toggles).  `animateScore` only starts a timer inside
the handler, so the handler records a `startScoreAnimation` event and the
timer itself is modelled separately below.
-/

/-- The DOM state the click handlers manipulate. -/
structure UI where
  loaderHidden : Bool
  reviewBtnDisabled : Bool
  reviewOutput : String
  outputCode : String
  scoreDisplay : String
  errorBoxHidden : Bool
  errorMessage : String

/-- Observable actions of the submit click handler, in order. -/
inductive UIEvent where
  | showErrorBox : UIEvent
  | hideErrorBox : UIEvent
  | showLoader : UIEvent
  | disableSubmit : UIEvent
  | networkCall : UIEvent
  | setReviewOutput : UIEvent
  | setOutputCode : UIEvent
  | startScoreAnimation : UIEvent
  | hideLoader : UIEvent
  | enableSubmit : UIEvent
deriving DecidableEq

/-- Validation message for blank input. -/
def validationMsg : String := "Please paste some code in the input box before reviewing."

/-- Placeholder shown when `updatedCode` is empty or blank. -/
def noChangesMsg : String := "No changes needed. Your code is looking great!"

/-- Prefix of the error banner text in the catch branch. -/
def errPrefix : String := "An error occurred: "

/-- `formatReviewAsHtml(result.review)`: fails when `result.review` is
missing or not a string (the `.split` call would throw). -/
def getReviewStr (result : Json) : Except String String :=
  match jsGetProp (some result) "review" with
  | Except.error e => Except.error e
  | Except.ok (some (Json.str s)) => Except.ok s
  | Except.ok _ => Except.error "TypeError: reviewText.split is not a function"

/-- `animateScore(result.score)` setup: reading `result.score` (the only
fallible part of starting the animation). -/
def renderScoreStep (result : Json) (ui : UI) (evs : List UIEvent) :
    UI × List UIEvent × Option String :=
  match jsGetProp (some result) "score" with
  | Except.error e => (ui, evs, some e)
  | Except.ok _ => (ui, evs ++ [UIEvent.startScoreAnimation], none)

/-- The body of the `try` block after `callGeminiAPI` has succeeded with
`result`: updates performed so far are kept even if a later step throws
(third component = thrown message). -/
def renderSuccess (result : Json) (ui : UI) : UI × List UIEvent × Option String :=
  match getReviewStr result with
  | Except.error e => (ui, [], some e)
  | Except.ok reviewStr =>
    match jsGetProp (some result) "updatedCode" with
    | Except.error e =>
      ({ ui with reviewOutput := formatReviewAsHtml reviewStr },
        [UIEvent.setReviewOutput], some e)
    | Except.ok upd =>
      if jsTruthy upd then
        match upd with
        | some (Json.str s) =>
          if trimStr s ≠ "" then
            renderScoreStep result
              { ui with reviewOutput := formatReviewAsHtml reviewStr, outputCode := s }
              [UIEvent.setReviewOutput, UIEvent.setOutputCode]
          else
            renderScoreStep result
              { ui with reviewOutput := formatReviewAsHtml reviewStr,
                        outputCode := noChangesMsg }
              [UIEvent.setReviewOutput, UIEvent.setOutputCode]
        | _ =>
          ({ ui with reviewOutput := formatReviewAsHtml reviewStr },
            [UIEvent.setReviewOutput],
            some "TypeError: updatedCode.trim is not a function")
      else
        renderScoreStep result
          { ui with reviewOutput := formatReviewAsHtml reviewStr,
                    outputCode := noChangesMsg }
          [UIEvent.setReviewOutput, UIEvent.setOutputCode]

/-- The intermediate state on entering Loading: error box hidden, loader
shown, submit disabled. -/
def uiLoading (ui : UI) : UI :=
  { ui with errorBoxHidden := true, loaderHidden := false, reviewBtnDisabled := true }

/-- Events before the network call on a non-blank submission. -/
def startEvs : List UIEvent :=
  [UIEvent.hideErrorBox, UIEvent.showLoader, UIEvent.disableSubmit, UIEvent.networkCall]

/-- Events of the `finally` block. -/
def finallyEvs : List UIEvent := [UIEvent.hideLoader, UIEvent.enableSubmit]

/-- The `reviewBtn` click handler.  `inputVal` is `inputCode.value`; `api`
is the outcome of `await callGeminiAPI(userCode)`; the `finally` block
(hide loader, re-enable button) runs on every path after the guard. -/
def reviewClickHandler (inputVal : String) (api : Except String Json) (ui : UI) :
    UI × List UIEvent :=
  if trimStr inputVal = "" then
    ({ ui with errorMessage := validationMsg, errorBoxHidden := false },
      [UIEvent.showErrorBox])
  else
    match api with
    | Except.error e =>
      ({ uiLoading ui with errorMessage := errPrefix ++ e, errorBoxHidden := false,
                           loaderHidden := true, reviewBtnDisabled := false },
        startEvs ++ [UIEvent.showErrorBox] ++ finallyEvs)
    | Except.ok result =>
      match (renderSuccess result (uiLoading ui)).2.2 with
      | none =>
        ({ (renderSuccess result (uiLoading ui)).1 with
            loaderHidden := true, reviewBtnDisabled := false },
          startEvs ++ (renderSuccess result (uiLoading ui)).2.1 ++ finallyEvs)
      | some e =>
        ({ (renderSuccess result (uiLoading ui)).1 with
            errorMessage := errPrefix ++ e, errorBoxHidden := false,
            loaderHidden := true, reviewBtnDisabled := false },
          startEvs ++ ((renderSuccess result (uiLoading ui)).2.1 ++ [UIEvent.showErrorBox])
            ++ finallyEvs)

theorem renderSuccess_events (result : Json) (ui : UI) :
    ∀ e ∈ (renderSuccess result ui).2.1,
      e = UIEvent.setReviewOutput ∨ e = UIEvent.setOutputCode ∨
        e = UIEvent.startScoreAnimation := by
  unfold renderSuccess renderScoreStep
  repeat' split
  all_goals intro e he
  all_goals simp_all
  all_goals tauto

theorem reviewClickHandler_error (inputVal e : String) (ui : UI)
    (h : trimStr inputVal ≠ "") :
    reviewClickHandler inputVal (Except.error e) ui =
      ({ uiLoading ui with errorMessage := errPrefix ++ e, errorBoxHidden := false,
                           loaderHidden := true, reviewBtnDisabled := false },
        startEvs ++ [UIEvent.showErrorBox] ++ finallyEvs) := by
  unfold reviewClickHandler
  rw [if_neg h]

/-- C3: for a non-blank input, one click performs exactly one network call,
the submit control is disabled before the call and re-enabled after it, and
on every outcome the handler ends with the button enabled and the loader
hidden. -/
theorem C3_single_flight_guarded (inputVal : String) (api : Except String Json)
    (ui : UI) (h : trimStr inputVal ≠ "") :
    (reviewClickHandler inputVal api ui).2.count UIEvent.networkCall = 1 ∧
    (reviewClickHandler inputVal api ui).1.reviewBtnDisabled = false ∧
    (reviewClickHandler inputVal api ui).1.loaderHidden = true ∧
    ∃ pre post : List UIEvent,
      (reviewClickHandler inputVal api ui).2 = pre ++ UIEvent.networkCall :: post ∧
      UIEvent.disableSubmit ∈ pre ∧ UIEvent.enableSubmit ∈ post := by
  cases api with
  | error e =>
    rw [reviewClickHandler_error inputVal e ui h]
    exact ⟨(by decide :
        List.count UIEvent.networkCall (startEvs ++ [UIEvent.showErrorBox] ++ finallyEvs)
          = 1), rfl, rfl,
      ⟨[UIEvent.hideErrorBox, UIEvent.showLoader, UIEvent.disableSubmit],
        [UIEvent.showErrorBox, UIEvent.hideLoader, UIEvent.enableSubmit],
        (by decide : startEvs ++ [UIEvent.showErrorBox] ++ finallyEvs =
          [UIEvent.hideErrorBox, UIEvent.showLoader, UIEvent.disableSubmit] ++
            UIEvent.networkCall ::
              [UIEvent.showErrorBox, UIEvent.hideLoader, UIEvent.enableSubmit]),
        by decide, by decide⟩⟩
  | ok result =>
    have hev := renderSuccess_events result (uiLoading ui)
    have hcount : ((renderSuccess result (uiLoading ui)).2.1).count
        UIEvent.networkCall = 0 := by
      rw [List.count_eq_zero]
      intro hm
      rcases hev UIEvent.networkCall hm with h1 | h1 | h1 <;>
        exact absurd h1 (by decide)
    have hguard : reviewClickHandler inputVal (Except.ok result) ui =
        (match (renderSuccess result (uiLoading ui)).2.2 with
         | none =>
           ({ (renderSuccess result (uiLoading ui)).1 with
               loaderHidden := true, reviewBtnDisabled := false },
             startEvs ++ (renderSuccess result (uiLoading ui)).2.1 ++ finallyEvs)
         | some e =>
           ({ (renderSuccess result (uiLoading ui)).1 with
               errorMessage := errPrefix ++ e, errorBoxHidden := false,
               loaderHidden := true, reviewBtnDisabled := false },
             startEvs ++ ((renderSuccess result (uiLoading ui)).2.1 ++
               [UIEvent.showErrorBox]) ++ finallyEvs)) := by
      unfold reviewClickHandler
      rw [if_neg h]
    cases herr : (renderSuccess result (uiLoading ui)).2.2 with
    | none =>
      rw [hguard, herr]
      refine ⟨?_, rfl, rfl,
        ⟨[UIEvent.hideErrorBox, UIEvent.showLoader, UIEvent.disableSubmit],
          (renderSuccess result (uiLoading ui)).2.1 ++ finallyEvs,
          ?_, by decide, ?_⟩⟩
      · simp [startEvs, finallyEvs, List.count_append, hcount]
      · simp [startEvs, finallyEvs]
      · exact List.mem_append_right _ (by decide)
    | some e =>
      rw [hguard, herr]
      refine ⟨?_, rfl, rfl,
        ⟨[UIEvent.hideErrorBox, UIEvent.showLoader, UIEvent.disableSubmit],
          ((renderSuccess result (uiLoading ui)).2.1 ++ [UIEvent.showErrorBox]) ++
            finallyEvs,
          ?_, by decide, ?_⟩⟩
      · simp [startEvs, finallyEvs, List.count_append, hcount]
      · simp [startEvs, finallyEvs]
      · exact List.mem_append_right _ (by decide)

/-- The idle page state. -/
def uiIdle : UI := ⟨true, false, "", "", "N/A", true, ""⟩

/-- C3 witness: a concrete non-blank input with a failing call satisfies the
guard and the single-flight conclusion. -/
theorem C3_witness_concrete :
    trimStr "let x = 1;" ≠ "" ∧
    ((reviewClickHandler "let x = 1;" (Except.error "boom") uiIdle).2.count
        UIEvent.networkCall = 1 ∧
      (reviewClickHandler "let x = 1;" (Except.error "boom") uiIdle).1.reviewBtnDisabled
        = false ∧
      (reviewClickHandler "let x = 1;" (Except.error "boom") uiIdle).1.loaderHidden
        = true ∧
      ∃ pre post : List UIEvent,
        (reviewClickHandler "let x = 1;" (Except.error "boom") uiIdle).2 =
          pre ++ UIEvent.networkCall :: post ∧
        UIEvent.disableSubmit ∈ pre ∧ UIEvent.enableSubmit ∈ post) :=
  ⟨by decide, C3_single_flight_guarded "let x = 1;" (Except.error "boom") uiIdle (by decide)⟩

/-- C7: when the network/parse step fails, only the error banner changes:
the corrected-code box, the score display and the review panel keep their
prior values and no output-writing event occurs. -/
theorem C7_failure_preserves_outputs (inputVal e : String) (ui : UI)
    (h : trimStr inputVal ≠ "") :
    (reviewClickHandler inputVal (Except.error e) ui).1.outputCode = ui.outputCode ∧
    (reviewClickHandler inputVal (Except.error e) ui).1.scoreDisplay = ui.scoreDisplay ∧
    (reviewClickHandler inputVal (Except.error e) ui).1.reviewOutput = ui.reviewOutput ∧
    UIEvent.setOutputCode ∉ (reviewClickHandler inputVal (Except.error e) ui).2 ∧
    UIEvent.startScoreAnimation ∉ (reviewClickHandler inputVal (Except.error e) ui).2 ∧
    (reviewClickHandler inputVal (Except.error e) ui).1.errorBoxHidden = false ∧
    (reviewClickHandler inputVal (Except.error e) ui).1.errorMessage = errPrefix ++ e := by
  rw [reviewClickHandler_error inputVal e ui h]
  exact ⟨rfl, rfl, rfl,
    (by decide :
      UIEvent.setOutputCode ∉ startEvs ++ [UIEvent.showErrorBox] ++ finallyEvs),
    (by decide :
      UIEvent.startScoreAnimation ∉ startEvs ++ [UIEvent.showErrorBox] ++ finallyEvs),
    rfl, rfl⟩

/-- C7 witness: concrete failing submission leaves outputs untouched. -/
theorem C7_witness_concrete :
    trimStr "var y = 2" ≠ "" ∧
    ((reviewClickHandler "var y = 2" (Except.error "boom") uiIdle).1.outputCode =
        uiIdle.outputCode ∧
      (reviewClickHandler "var y = 2" (Except.error "boom") uiIdle).1.scoreDisplay =
        uiIdle.scoreDisplay ∧
      (reviewClickHandler "var y = 2" (Except.error "boom") uiIdle).1.reviewOutput =
        uiIdle.reviewOutput ∧
      UIEvent.setOutputCode ∉
        (reviewClickHandler "var y = 2" (Except.error "boom") uiIdle).2 ∧
      UIEvent.startScoreAnimation ∉
        (reviewClickHandler "var y = 2" (Except.error "boom") uiIdle).2 ∧
      (reviewClickHandler "var y = 2" (Except.error "boom") uiIdle).1.errorBoxHidden
        = false ∧
      (reviewClickHandler "var y = 2" (Except.error "boom") uiIdle).1.errorMessage =
        errPrefix ++ "boom") :=
  ⟨by decide, C7_failure_preserves_outputs "var y = 2" "boom" uiIdle (by decide)⟩

/-!
### The Netlify function `netlify/functions/review.js`

`exports.handler` is modelled from the point where its inputs are fixed:
the incoming event, the `GEMINI_API_KEY` environment value, and the response
`fetch` would deliver for the forwarded request.  All throws inside the
`try` block are caught and turned into status 500 with body
`JSON.stringify({error: message})`.
-/

/-- The Netlify invocation event. -/
structure NetlifyEvent where
  httpMethod : String
  body : String

/-- The handler result. -/
structure NetlifyResponse where
  statusCode : Nat
  body : String
  hasJsonContentType : Bool

/-- The upstream Gemini response as `fetch` delivers it (raw body text). -/
structure UpstreamResponse where
  ok : Bool
  status : Nat
  bodyText : String

/-- Modelled message of a `JSON.parse` `SyntaxError` on the request body. -/
def requestBodyParseErrMsg : String := "Unexpected token in JSON request body"

/-- Modelled message of a `JSON.parse` `SyntaxError` on the upstream body. -/
def upstreamBodyParseErrMsg : String := "Unexpected token in JSON upstream body"

/-- Body of every 500 answer: `JSON.stringify({error: message})`. -/
def errBody (m : String) : String :=
  jsonStringify (Json.obj [("error", Json.str m)])

/-- A 500 answer produced by the catch block (or the missing-key guard). -/
def mk500 (m : String) : NetlifyResponse :=
  { statusCode := 500, body := errBody m, hasJsonContentType := false }

/-- `const { code } = JSON.parse(event.body)`: destructuring `null` throws. -/
def destructureCode (v : Json) : Except String (Option Json) :=
  match v with
  | Json.null => Except.error "TypeError: cannot destructure property code of null"
  | Json.obj fields =>
      Except.ok ((fields.find? (fun p => p.fst = "code")).map Prod.snd)
  | _ => Except.ok none

/-- The response body on the success path (`body: responseText`); the
platform serializes a non-string value. -/
def jsBodyString : Option Json → String
  | some (Json.str s) => s
  | some v => jsonStringify v
  | none => ""

/-- `exports.handler` of the Netlify function. -/
def proxyHandler (event : NetlifyEvent) (apiKey : Option String)
    (upstream : UpstreamResponse) : NetlifyResponse :=
  if event.httpMethod ≠ "POST" then
    { statusCode := 405, body := "Method Not Allowed", hasJsonContentType := false }
  else
    match jsonParse event.body with
    | none => mk500 requestBodyParseErrMsg
    | some bodyJson =>
      match destructureCode bodyJson with
      | Except.error m => mk500 m
      | Except.ok _ =>
        match apiKey with
        | none => mk500 "API key is not configured on the server."
        | some _ =>
          if upstream.ok = false then
            match jsonParse upstream.bodyText with
            | none => mk500 upstreamBodyParseErrMsg
            | some errorData =>
              { statusCode := upstream.status, body := jsonStringify errorData,
                hasJsonContentType := false }
          else
            match jsonParse upstream.bodyText with
            | none => mk500 upstreamBodyParseErrMsg
            | some result =>
              match extractFirstCandidateText result with
              | Except.error m => mk500 m
              | Except.ok t =>
                { statusCode := 200, body := jsBodyString t,
                  hasJsonContentType := true }

/-- A well-formed POST event used in concrete proxy runs. -/
def postEvent : NetlifyEvent := ⟨"POST", "\x7b\"code\":\"x\"\x7d"⟩

/-- A non-success upstream answer whose JSON body contains whitespace. -/
def upstream429Ws : UpstreamResponse := ⟨false, 429, "\x7b \"a\": 1 \x7d"⟩

/-- C4 counterexample: on upstream status 429 with body `{ "a": 1 }` the
handler relays the status but re-serializes the body through
`JSON.parse`/`JSON.stringify`, so the relayed body is `{"a":1}`, not the
upstream bytes. -/
theorem C4_counterexample_body_reserialized :
    (proxyHandler postEvent (some "k") upstream429Ws).statusCode = 429 ∧
    (proxyHandler postEvent (some "k") upstream429Ws).body =
      "\x7b\"a\":1\x7d" ∧
    (proxyHandler postEvent (some "k") upstream429Ws).body ≠
      upstream429Ws.bodyText :=
  ⟨rfl, rfl, by decide⟩

/-- C4 (amended): for a POST whose body parses, with a configured key and a
non-success upstream answer, the handler returns the upstream status with
the upstream JSON body re-serialized (`JSON.stringify` of its `JSON.parse`,
semantically the same JSON but not byte-identical); if the upstream body is
not valid JSON it returns 500 with an error payload instead. -/
theorem C4_error_relay_amended (event : NetlifyEvent) (key : String)
    (upstream : UpstreamResponse) (bodyJson : Json)
    (hm : event.httpMethod = "POST")
    (hb : jsonParse event.body = some bodyJson)
    (hd : ∃ c, destructureCode bodyJson = Except.ok c)
    (hok : upstream.ok = false) :
    (∀ v : Json, jsonParse upstream.bodyText = some v →
      proxyHandler event (some key) upstream =
        { statusCode := upstream.status, body := jsonStringify v,
          hasJsonContentType := false }) ∧
    (jsonParse upstream.bodyText = none →
      proxyHandler event (some key) upstream = mk500 upstreamBodyParseErrMsg) := by
  rcases hd with ⟨c, hd⟩
  constructor
  · intro v hv
    unfold proxyHandler
    rw [if_neg (by rw [hm]; simp)]
    simp [hb, hd, hok, hv]
  · intro hv
    unfold proxyHandler
    rw [if_neg (by rw [hm]; simp)]
    simp [hb, hd, hok, hv]

/-- C4 witness: concrete inputs discharging the amended relay theorem. -/
theorem C4_witness_concrete :
    postEvent.httpMethod = "POST" ∧
    jsonParse postEvent.body = some (Json.obj [("code", Json.str "x")]) ∧
    (∃ c, destructureCode (Json.obj [("code", Json.str "x")]) = Except.ok c) ∧
    upstream429Ws.ok = false ∧
    ((∀ v : Json, jsonParse upstream429Ws.bodyText = some v →
      proxyHandler postEvent (some "k") upstream429Ws =
        { statusCode := upstream429Ws.status, body := jsonStringify v,
          hasJsonContentType := false }) ∧
    (jsonParse upstream429Ws.bodyText = none →
      proxyHandler postEvent (some "k") upstream429Ws =
        mk500 upstreamBodyParseErrMsg)) :=
  ⟨rfl, rfl, ⟨some (Json.str "x"), rfl⟩, rfl,
    C4_error_relay_amended postEvent "k" upstream429Ws
      (Json.obj [("code", Json.str "x")]) rfl rfl ⟨some (Json.str "x"), rfl⟩ rfl⟩

/-- The parsed upstream body has no first candidate: `candidates[0]` is
`undefined` or the access itself throws. -/
def lacksFirstCandidate (result : Json) : Bool :=
  match jsGetProp (some result) "candidates" with
  | Except.error _ => true
  | Except.ok c =>
    match jsIndex c 0 with
    | Except.error _ => true
    | Except.ok none => true
    | Except.ok (some _) => false

theorem extract_error_of_lacksFirstCandidate (result : Json)
    (h : lacksFirstCandidate result = true) :
    ∃ m, extractFirstCandidateText result = Except.error m := by
  unfold lacksFirstCandidate at h
  unfold extractFirstCandidateText
  split at h
  next e heq => simp [heq]
  next c heq =>
    split at h
    next e2 heq2 => simp [heq, heq2]
    next heq2 => simp [heq, heq2, jsGetProp]
    next x heq2 => simp at h

theorem conclude_500 {r : NetlifyResponse} (h : ∃ m, r = mk500 m) :
    r.statusCode = 500 ∧ ∃ m, r.body = errBody m := by
  rcases h with ⟨m, hr⟩
  rw [hr]
  exact ⟨rfl, ⟨m, rfl⟩⟩

/-- C10: a POST whose body is not valid JSON, and a POST whose upstream
success response lacks a first candidate, are both answered with status 500
and a JSON body of the form `{error: message}` — never any other status. -/
theorem C10_post_failures_return_500 :
    (∀ (event : NetlifyEvent) (key : Option String) (upstream : UpstreamResponse),
      event.httpMethod = "POST" → jsonParse event.body = none →
        (proxyHandler event key upstream).statusCode = 500 ∧
        ∃ m, (proxyHandler event key upstream).body = errBody m) ∧
    (∀ (event : NetlifyEvent) (key : Option String) (upstream : UpstreamResponse)
        (result : Json),
      event.httpMethod = "POST" → upstream.ok = true →
        jsonParse upstream.bodyText = some result →
        lacksFirstCandidate result = true →
        (proxyHandler event key upstream).statusCode = 500 ∧
        ∃ m, (proxyHandler event key upstream).body = errBody m) := by
  constructor
  · intro event key upstream hm hb
    apply conclude_500
    refine ⟨requestBodyParseErrMsg, ?_⟩
    unfold proxyHandler
    rw [if_neg (by rw [hm]; simp)]
    simp [hb]
  · intro event key upstream result hm hok hb hlack
    apply conclude_500
    rcases extract_error_of_lacksFirstCandidate result hlack with ⟨m0, hex⟩
    cases hpb : jsonParse event.body with
    | none =>
      refine ⟨requestBodyParseErrMsg, ?_⟩
      unfold proxyHandler
      rw [if_neg (by rw [hm]; simp)]
      simp [hpb]
    | some bj =>
      cases hd : destructureCode bj with
      | error mD =>
        refine ⟨mD, ?_⟩
        unfold proxyHandler
        rw [if_neg (by rw [hm]; simp)]
        simp [hpb, hd]
      | ok c =>
        cases key with
        | none =>
          refine ⟨"API key is not configured on the server.", ?_⟩
          unfold proxyHandler
          rw [if_neg (by rw [hm]; simp)]
          simp [hpb, hd]
        | some k =>
          refine ⟨m0, ?_⟩
          unfold proxyHandler
          rw [if_neg (by rw [hm]; simp)]
          simp [hpb, hd, hok, hb, hex]

/-- An upstream success answer whose body parses but has no candidates. -/
def upstreamNoCandidates : UpstreamResponse :=
  ⟨true, 200, "\x7b\"candidates\":[]\x7d"⟩

/-- An event whose body is not valid JSON. -/
def badBodyEvent : NetlifyEvent := ⟨"POST", "not json"⟩

/-- C10 witness: both halves applied at concrete inputs. -/
theorem C10_witness_concrete :
    (badBodyEvent.httpMethod = "POST" ∧ jsonParse badBodyEvent.body = none ∧
      (proxyHandler badBodyEvent (some "k") upstreamNoCandidates).statusCode = 500 ∧
      (∃ m, (proxyHandler badBodyEvent (some "k") upstreamNoCandidates).body =
        errBody m)) ∧
    (postEvent.httpMethod = "POST" ∧ upstreamNoCandidates.ok = true ∧
      jsonParse upstreamNoCandidates.bodyText =
        some (Json.obj [("candidates", Json.arr [])]) ∧
      lacksFirstCandidate (Json.obj [("candidates", Json.arr [])]) = true ∧
      (proxyHandler postEvent (some "k") upstreamNoCandidates).statusCode = 500 ∧
      (∃ m, (proxyHandler postEvent (some "k") upstreamNoCandidates).body =
        errBody m)) := by
  refine ⟨⟨rfl, rfl, ?_⟩, ⟨rfl, rfl, rfl, rfl, ?_⟩⟩
  · exact C10_post_failures_return_500.1 badBodyEvent (some "k") upstreamNoCandidates
      rfl rfl
  · exact C10_post_failures_return_500.2 postEvent (some "k") upstreamNoCandidates
      (Json.obj [("candidates", Json.arr [])]) rfl rfl rfl rfl

/-!
### `animateScore`

```
let currentScore = 0;
const timer = setInterval(() => {
  currentScore++;
  scoreDisplay.textContent = currentScore;
  if (currentScore >= finalScore) { clearInterval(timer); }
}, 20);
```
One `animTick` is one timer firing; `animAfter n k` is the state after `k`
firings; `animAtTime` places the firings every 20 time units.
-/

/-- The `setInterval` period (time units). -/
def animateIntervalMs : Nat := 20

/-- Animation state: closure variable `currentScore`, the displayed counter
(`none` before the first firing), and whether the interval is active. -/
structure AnimState where
  currentScore : Int
  displayed : Option Int
  timerActive : Bool
deriving DecidableEq

/-- State right after `animateScore(finalScore)` installs the timer. -/
def animInit : AnimState := ⟨0, none, true⟩

/-- One timer firing; a cleared interval never fires again. -/
def animTick (finalScore : Int) (s : AnimState) : AnimState :=
  if s.timerActive then
    { currentScore := s.currentScore + 1,
      displayed := some (s.currentScore + 1),
      timerActive := !decide (s.currentScore + 1 ≥ finalScore) }
  else s

/-- State after `k` timer firings of `animateScore(finalScore)`. -/
def animAfter (finalScore : Int) : Nat → AnimState
  | 0 => animInit
  | Nat.succ k => animTick finalScore (animAfter finalScore k)

/-- State at time `t` (a firing every `animateIntervalMs` time units). -/
def animAtTime (finalScore : Int) (t : Nat) : AnimState :=
  animAfter finalScore (t / animateIntervalMs)

theorem animAfter_progress (n : Int) (h : 1 ≤ n) :
    ∀ k : Nat, k ≤ n.toNat →
      animAfter n k = ⟨(k : Int), if k = 0 then none else some (k : Int),
        decide (k < n.toNat)⟩ := by
  intro k
  induction k with
  | zero =>
    intro _
    have h0 : (0 : Nat) < n.toNat := by omega
    show animInit = _
    unfold animInit
    simp [h0]
  | succ k ih =>
    intro hk
    have hk2 : k ≤ n.toNat := Nat.le_of_succ_le hk
    have hklt : k < n.toNat := hk
    show animTick n (animAfter n k) = _
    rw [ih hk2]
    unfold animTick
    rw [if_pos (by simp [hklt] : (AnimState.timerActive
      ⟨(k : Int), if k = 0 then none else some (k : Int), decide (k < n.toNat)⟩) = true)]
    have hc1 : (k : Int) + 1 = ((k + 1 : Nat) : Int) := by push_cast; ring
    have hc2 : (!decide ((k : Int) + 1 ≥ n)) = decide (k + 1 < n.toNat) := by
      rcases Nat.lt_or_ge (k + 1) n.toNat with hlt | hge
    
      · have hp : ¬ ((k : Int) + 1 ≥ n) := by omega
        simp [hp, hlt]
      · have hp : (k : Int) + 1 ≥ n := by omega
        have hnlt : ¬ (k + 1 < n.toNat) := by omega
        simp [hp, hnlt]
    simp only [hc1, hc2]
    simp
    simp only [← decide_not]
    rw [decide_eq_decide]
    omega

theorem animAfter_stopped (n : Int) (h : 1 ≤ n) :
    ∀ k : Nat, n.toNat ≤ k → animAfter n k = ⟨n, some n, false⟩ := by
  have hbase : animAfter n n.toNat = ⟨n, some n, false⟩ := by
    rw [animAfter_progress n h n.toNat (Nat.le_refl _)]
    have hne : n.toNat ≠ 0 := by omega
    have hcast : ((n.toNat : Nat) : Int) = n := by omega
    simp [hne, hcast]
  intro k
  induction k with
  | zero =>
    intro hk
    exact absurd hk (by omega)
  | succ k ih =>
    intro hk
    by_cases hke : n.toNat ≤ k
    · have hs := ih hke
      show animTick n (animAfter n k) = _
      rw [hs]
      rfl
    · have hkeq : k + 1 = n.toNat := by omega
      rw [hkeq, hbase]

/-- C5 counterexample: `animateScore(0)` never displays `0`: the first
firing already overshoots to `1` and clears the timer, so the counter ends
at `1`, not at the target `0`. -/
theorem C5_counterexample_zero :
    (animAfter 0 1).displayed = some 1 ∧
    (animAfter 0 1).timerActive = false ∧
    animAfter 0 5 = animAfter 0 1 ∧
    (animAfter 0 1).displayed ≠ some 0 := by decide

/-- C5 (amended): for `finalScore ≥ 1` the counter increments by one per
firing (one firing every 20 time units), displays exactly `k` after the
`k`-th firing, reaches exactly `finalScore`, then the interval stops and the
state never changes again. -/
theorem C5_animate_score_amended (finalScore : Int) (h : 1 ≤ finalScore) :
    (∀ k : Nat, 1 ≤ k → k ≤ finalScore.toNat →
      (animAfter finalScore k).displayed = some (k : Int) ∧
      (animAfter finalScore k).currentScore = (k : Int) ∧
      ((animAfter finalScore k).timerActive = true ↔ k < finalScore.toNat)) ∧
    (∀ k : Nat, finalScore.toNat ≤ k →
      animAfter finalScore k = ⟨finalScore, some finalScore, false⟩) ∧
    (∀ k : Nat, animAtTime finalScore (animateIntervalMs * k) =
      animAfter finalScore k) := by
  refine ⟨?_, animAfter_stopped finalScore h, ?_⟩
  · intro k h1 h2
    rw [animAfter_progress finalScore h k h2]
    have hne : k ≠ 0 := by omega
    simp [hne]
  · intro k
    unfold animAtTime
    rw [Nat.mul_div_cancel_left k (show 0 < animateIntervalMs from by decide)]

/-- C5 witness: `animateScore(42)` reaches exactly 42 after 42 firings
(at time 840) and the timer stops; later firings change nothing. -/
theorem C5_witness_42 :
    (1 : Int) ≤ 42 ∧
    ((∀ k : Nat, 1 ≤ k → k ≤ (42 : Int).toNat →
      (animAfter 42 k).displayed = some (k : Int) ∧
      (animAfter 42 k).currentScore = (k : Int) ∧
      ((animAfter 42 k).timerActive = true ↔ k < (42 : Int).toNat)) ∧
    (∀ k : Nat, (42 : Int).toNat ≤ k →
      animAfter 42 k = ⟨42, some 42, false⟩) ∧
    (∀ k : Nat, animAtTime 42 (animateIntervalMs * k) = animAfter 42 k)) :=
  ⟨by decide, C5_animate_score_amended 42 (by decide)⟩
